import Mathlib

/-!
Shallow embedding of `src/main.rs` of the repox repository: a utility that
batch-applies a git subcommand over a list of repository identifiers using a
shared work queue drained by a fixed pool of workers.

The embedding models:
* `read_repos` (line filtering of the repo-list file);
* the repo-name derivation and command-resolution logic of `process_repo`;
* the external-process invocations and output events of `process_repo`,
  with the external `git` tool abstracted as an oracle
  `exec : List String → ExecResult`;
* the shared-queue worker pool of `run_in_parallel` as a small-step
  transition system (`PoolStep`) in which a pop of the shared `Vec` and the
  subsequent processing of the popped item form one atomic step (the pop is
  performed under the queue mutex in the source, and processing touches no
  shared state other than the print lock).
-/

namespace Repox

/-- Rust `str::trim`: remove leading and trailing whitespace characters.
Defined on the character list so that it is kernel-computable. -/
def trimStr (s : String) : String :=
  ⟨((s.data.dropWhile Char.isWhitespace).reverse.dropWhile Char.isWhitespace).reverse⟩

/-- Rust `line.starts_with('#')`: the first character is `'#'`. -/
def startsHash (s : String) : Bool :=
  match s.data with
  | '#' :: _ => true
  | _ => false

/-- Rust `str::to_uppercase` on the ASCII commands this program handles. -/
def toUpperStr (s : String) : String :=
  ⟨s.data.map Char.toUpper⟩

/-- Reversed-character-list form of Rust `trim_end_matches(".git")`: the
input is the reversed character list of the string, and every leading
occurrence of reversed `".git"` (that is, `'t','i','g','.'`) is removed. -/
def dropGitRev : List Char → List Char
  | 't' :: 'i' :: 'g' :: '.' :: rest => dropGitRev rest
  | l => l

/-- Reversed-character-list form of `rsplit('/').next()`: take characters of
the reversed string up to (excluding) the first `'/'`. -/
def lastSegRev (l : List Char) : List Char :=
  l.takeWhile (fun c => c ≠ '/')

/-- Rust `s.trim_end_matches(".git")` — repeatedly strips a trailing
`".git"`. -/
def trimEndGit (s : String) : String :=
  ⟨(dropGitRev s.data.reverse).reverse⟩

/-- Rust `s.rsplit('/').next().unwrap_or(s)`: the substring after the last
`'/'` (the whole string when there is no `'/'`; `rsplit` always yields at
least one piece, so the `unwrap_or` default is never used). -/
def lastSegment (s : String) : String :=
  ⟨(lastSegRev s.data.reverse).reverse⟩

/-- `repo_name` as computed in `process_repo` (src/main.rs lines 49–53):
first strip trailing `".git"` from the whole identifier, then take the last
`'/'`-separated segment. -/
def repoName (repo : String) : String :=
  lastSegment (trimEndGit repo)

/-- The local name as the spec words it: the last path segment, with the
`".git"` suffix stripped (stripping in the other order: segment first,
then suffix). -/
def specLocalName (repo : String) : String :=
  trimEndGit (lastSegment repo)

/-- The slice of `Config` that `process_repo` actually reads: the requested
command and the resolved dev directory. -/
structure Config where
  cmd : String
  devDir : String
deriving DecidableEq

/-- `config.dev_dir.join(repo_name)` (src/main.rs line 54). Since the
derived name contains no `'/'`, `PathBuf::join` is plain concatenation with
a separator. -/
def localRepo (cfg : Config) (repo : String) : String :=
  cfg.devDir ++ "/" ++ repoName repo

/-- Command resolution of src/main.rs lines 56–62 as the pure function the
spec (§4.2) calls `resolve`: from the requested command and whether the
local path exists, compute the command actually run and whether the
repository is skipped. -/
def resolve (cmd : String) (localExists : Bool) : String × Bool :=
  if ¬localExists ∧ cmd ≠ "clone" then ("clone", false)
  else if localExists ∧ cmd = "clone" then (cmd, true)
  else (cmd, false)

/-- Result of one external-process invocation: either the process ran
(regardless of exit code) with captured stdout and stderr, or spawning
failed with a descriptive message. -/
inductive ExecResult where
  | ok (stdout stderr : String)
  | spawnErr (msg : String)
deriving DecidableEq

/-- One unit of terminal output emitted under the print lock: either the
labeled per-repository block (src/main.rs lines 95–107) or the spawn-failure
error line (lines 109–116). `headerCmd` is the already-uppercased command
shown in the block header. -/
inductive OutputEvent where
  | block (headerCmd repo stdout stderr : String)
  | errLine (cmd repo msg : String)
deriving DecidableEq

/-- Argument list of the quiet status check
`git -C <localRepo> status --porcelain`. -/
def porcelainInv (lr : String) : List String :=
  ["-C", lr, "status", "--porcelain"]

/-- Argument list of the full status invocation `git -C <localRepo> status`. -/
def statusInv (lr : String) : List String :=
  ["-C", lr, "status"]

/-- Argument list of `git -C <devDir> clone <repo>`. -/
def cloneInv (devDir repo : String) : List String :=
  ["-C", devDir, "clone", repo]

/-- Argument list of `git -C <localRepo> <other>` for any other subcommand. -/
def otherInv (lr other : String) : List String :=
  ["-C", lr, other]

/-- The `match output` at src/main.rs lines 90–117: a successful run prints
the block headed by the REQUESTED command uppercased (`config.cmd`, not the
resolved one), a spawn failure prints an error line naming the requested
command. -/
def report (cfg : Config) (repo : String) : ExecResult → List OutputEvent
  | .ok o e => [.block (toUpperStr cfg.cmd) repo o e]
  | .spawnErr m => [.errLine cfg.cmd repo m]

/-- The `match cmd.as_str()` at src/main.rs lines 64–88, given the already
resolved command: returns the list of external invocations performed (in
order) and the output events emitted. For `"status"`, the quiet check runs
first; if it spawned successfully and its stdout is empty the function
returns with no further invocation and no output (line 72); otherwise
(non-empty stdout, or the check itself failed to spawn) the full status
runs and its result is reported. -/
def execCmd (cfg : Config) (repo lr cmd : String)
    (exec : List String → ExecResult) : List (List String) × List OutputEvent :=
  if cmd = "status" then
    match exec (porcelainInv lr) with
    | .ok out _ =>
        if out = "" then ([porcelainInv lr], [])
        else ([porcelainInv lr, statusInv lr],
              report cfg repo (exec (statusInv lr)))
    | .spawnErr _ =>
        ([porcelainInv lr, statusInv lr],
         report cfg repo (exec (statusInv lr)))
  else if cmd = "clone" then
    ([cloneInv cfg.devDir repo], report cfg repo (exec (cloneInv cfg.devDir repo)))
  else
    ([otherInv lr cmd], report cfg repo (exec (otherInv lr cmd)))

/-- `process_repo` (src/main.rs lines 48–118) for one repository. The
external tool is abstracted as the oracle `exec`; `localExists` abstracts
`local_repo.exists()`. Returns the external invocations made and the output
events emitted. The early `return` for an existing repo with requested
command `"clone"` yields `([], [])`: no invocation, no output. -/
def processRepo (cfg : Config) (repo : String) (localExists : Bool)
    (exec : List String → ExecResult) : List (List String) × List OutputEvent :=
  let lr := localRepo cfg repo
  if ¬localExists ∧ cfg.cmd ≠ "clone" then execCmd cfg repo lr "clone" exec
  else if localExists ∧ cfg.cmd = "clone" then ([], [])
  else execCmd cfg repo lr cfg.cmd exec

/-- The single-worker loop of src/main.rs lines 129–141, unrolled on the
REVERSED queue (`Vec::pop` removes the last element, so the worker visits
the reversed list front to back): returns the processed identifiers in
processing order together with all output events, concatenated in order. -/
def runWorkerRev (cfg : Config) (existsP : String → Bool)
    (exec : List String → ExecResult) : List String → List String × List OutputEvent
  | [] => ([], [])
  | r :: rest =>
      let res := processRepo cfg r (existsP r) exec
      let tail := runWorkerRev cfg existsP exec rest
      (r :: tail.1, res.2 ++ tail.2)

/-- A run of `run_in_parallel` with a single worker (`parallels == 1`): the
worker drains the shared `Vec` by popping from the end until it is empty. -/
def runWorker (cfg : Config) (existsP : String → Bool)
    (exec : List String → ExecResult) (repos : List String) :
    List String × List OutputEvent :=
  runWorkerRev cfg existsP exec repos.reverse

/-- State of the worker pool of `run_in_parallel` (src/main.rs lines
120–150): the shared queue (a `Vec`, popped from the end), the identifiers
removed so far in removal order, and the number of workers that have not yet
terminated. -/
structure PoolState where
  queue : List String
  plog : List String
  workers : Nat
deriving DecidableEq

/-- One atomic action of some live worker, mirroring the loop body at
src/main.rs lines 129–141. `pop`: the queue is non-empty, so the worker
removes the last element under the mutex and then processes it (processing
touches no shared state besides the print lock, so it is folded into the
step). `exitW`: the worker observes an empty queue under the mutex and
terminates (`break`). Both require at least one live worker. -/
inductive PoolStep : PoolState → PoolState → Prop
  | pop (q : List String) (x : String) (l : List String) (w : Nat) :
      PoolStep ⟨q ++ [x], l, w + 1⟩ ⟨q, l ++ [x], w + 1⟩
  | exitW (l : List String) (w : Nat) :
      PoolStep ⟨[], l, w + 1⟩ ⟨[], l, w⟩

/-- Zero or more pool steps. -/
def PoolReaches : PoolState → PoolState → Prop :=
  Relation.ReflTransGen PoolStep

/-- The pool state at the start of `run_in_parallel`: the full repository
list as the queue, nothing processed, `parallels` live workers. -/
def initPool (repos : List String) (parallels : Nat) : PoolState :=
  ⟨repos, [], parallels⟩

/-- A completed run: all workers have terminated (`join` at lines 147–149
has returned). -/
def PoolDone (s : PoolState) : Prop :=
  s.workers = 0

/-- Decimal digit accumulator used by `parseUsize`: `none` as soon as a
non-digit character appears. -/
def parseDigitsAux : Nat → List Char → Option Nat
  | acc, [] => some acc
  | acc, c :: rest =>
      if c.isDigit then parseDigitsAux (10 * acc + (c.toNat - 48)) rest else none

/-- Rust `str::parse::<usize>()`: an optional leading `'+'` followed by a
non-empty run of decimal digits (overflow is not modelled; `usize` is
modelled as `Nat`). Anything else is a parse error. -/
def parseUsize (s : String) : Option Nat :=
  match s.data with
  | [] => none
  | '+' :: rest => if rest.isEmpty then none else parseDigitsAux 0 rest
  | l => parseDigitsAux 0 l

/-- Rust `args[i].parse().unwrap_or(5)` at src/main.rs line 189: the `-p`
argument parsed as a non-negative integer, falling back to the default 5
when parsing fails. -/
def parseParallels (s : String) : Nat :=
  (parseUsize s).getD 5

/-- `read_repos` (src/main.rs lines 37–46) on the list of lines of the
file: trim each line, keep those that are non-empty and do not start with
`'#'`. -/
def readRepos (lines : List String) : List String :=
  (lines.map (fun line => trimStr line)).filter
    (fun line => !line.data.isEmpty && !startsHash line)

/-- The repo-list filtering as the spec words it (§6): for every line,
trim it; ignore it when the result is empty or starts with `'#'`,
otherwise the trimmed line is an identifier taken verbatim. -/
def readReposSpec (lines : List String) : List String :=
  lines.filterMap (fun line =>
    let t := trimStr line
    if t.data.isEmpty || startsHash t then none else some t)

theorem data_mk (l : List Char) : (String.mk l).data = l := rfl

/-- The single-worker loop processes exactly the identifiers handed to it,
in order, whatever the execution oracle answers. -/
theorem runWorkerRev_fst (cfg : Config) (existsP : String → Bool)
    (exec : List String → ExecResult) (l : List String) :
    (runWorkerRev cfg existsP exec l).1 = l := by
  induction l with
  | nil => rfl
  | cons r rest ih => simp [runWorkerRev, ih]

/-- When every spawn fails and no local path exists, each repository
resolves to a clone attempt whose spawn failure is reported as one error
line naming the requested command. -/
theorem processRepo_spawnErr (cmd devDir repo m : String) :
    processRepo ⟨cmd, devDir⟩ repo false (fun _ => .spawnErr m)
      = ([cloneInv devDir repo], [.errLine cmd repo m]) := by
  by_cases hc : cmd = "clone" <;> simp [processRepo, execCmd, report, hc]

/-- Event trace of the single-worker loop when every spawn fails: one error
line per processed repository, in processing order. -/
theorem runWorkerRev_spawnErr (cmd devDir m : String) (l : List String) :
    (runWorkerRev ⟨cmd, devDir⟩ (fun _ => false) (fun _ => .spawnErr m) l).2
      = l.map (fun r => OutputEvent.errLine cmd r m) := by
  induction l with
  | nil => rfl
  | cons r rest ih => simp [runWorkerRev, ih, processRepo_spawnErr]

/-- Every event `report` emits is a block headed by the uppercased
requested command, or an error line naming the requested command. -/
theorem report_header (cfg : Config) (repo : String) (r : ExecResult)
    (ev : OutputEvent) (h : ev ∈ report cfg repo r) :
    (∃ o e, ev = .block (toUpperStr cfg.cmd) repo o e) ∨
    (∃ m, ev = .errLine cfg.cmd repo m) := by
  cases r with
  | ok o e => exact Or.inl ⟨o, e, by simpa [report] using h⟩
  | spawnErr m => exact Or.inr ⟨m, by simpa [report] using h⟩

/-- Every event `execCmd` emits comes from `report`. -/
theorem execCmd_events_header (cfg : Config) (repo lr cmd : String)
    (exec : List String → ExecResult) (ev : OutputEvent)
    (h : ev ∈ (execCmd cfg repo lr cmd exec).2) :
    (∃ o e, ev = .block (toUpperStr cfg.cmd) repo o e) ∨
    (∃ m, ev = .errLine cfg.cmd repo m) := by
  unfold execCmd at h
  split at h
  · split at h
    · split at h
      · simp at h
      · exact report_header _ _ _ _ h
    · exact report_header _ _ _ _ h
  · split at h
    · exact report_header _ _ _ _ h
    · exact report_header _ _ _ _ h

/-- Every event `processRepo` emits is a block headed by the uppercased
REQUESTED command, or an error line naming the requested command. -/
theorem processRepo_events_header (cfg : Config) (repo : String) (ex : Bool)
    (exec : List String → ExecResult) (ev : OutputEvent)
    (h : ev ∈ (processRepo cfg repo ex exec).2) :
    (∃ o e, ev = .block (toUpperStr cfg.cmd) repo o e) ∨
    (∃ m, ev = .errLine cfg.cmd repo m) := by
  unfold processRepo at h
  split at h
  · exact execCmd_events_header _ _ _ _ _ _ h
  · split at h
    · simp at h
    · exact execCmd_events_header _ _ _ _ _ _ h

/-- Invariant of every run: the remaining queue followed by the reversed
processing log is exactly the initial list, and once any worker has
terminated the queue is (and stays) empty. -/
theorem poolReaches_inv {repos : List String} {P : Nat} {s : PoolState}
    (h : PoolReaches (initPool repos P) s) :
    s.queue ++ s.plog.reverse = repos ∧ (s.workers < P → s.queue = []) := by
  induction h with
  | refl => exact ⟨by simp [initPool], fun hc => absurd hc (lt_irrefl P)⟩
  | tail hr hs ih =>
      obtain ⟨ih1, ih2⟩ := ih
      cases hs with
      | pop q x l w =>
          refine ⟨?_, fun hw => ?_⟩
          · simpa [List.reverse_append, List.append_assoc] using ih1
          · exact absurd (ih2 hw) (by simp)
      | exitW l w => exact ⟨ih1, fun _ => rfl⟩

/-- In a completed run that started with at least one worker, the log is the
reversed input and the queue is empty. -/
theorem poolDone_log {repos : List String} {P : Nat} {s : PoolState} (hP : 0 < P)
    (h : PoolReaches (initPool repos P) s) (hd : PoolDone s) :
    s.plog = repos.reverse ∧ s.queue = [] := by
  obtain ⟨h1, h2⟩ := poolReaches_inv h
  have hw : s.workers < P := by
    have h0 : s.workers = 0 := hd
    omega
  have hq : s.queue = [] := h2 hw
  rw [hq, List.nil_append] at h1
  exact ⟨by rw [← h1, List.reverse_reverse], hq⟩

/-- A single live worker can drain any queue by popping from the end. -/
theorem pool_drain (w : Nat) (repos : List String) :
    ∀ l : List String, PoolReaches ⟨repos, l, w + 1⟩ ⟨[], l ++ repos.reverse, w + 1⟩ := by
  induction repos using List.reverseRecOn with
  | nil => intro l; simpa using (Relation.ReflTransGen.refl :
      PoolReaches ⟨[], l, w + 1⟩ ⟨[], l, w + 1⟩)
  | append_singleton q x ih =>
      intro l
      refine Relation.ReflTransGen.head (PoolStep.pop q x l w) ?_
      simpa [List.reverse_append, List.append_assoc] using ih (l ++ [x])

/-- Once the queue is empty, all live workers can terminate one by one. -/
theorem pool_exit_all (l : List String) (w : Nat) :
    PoolReaches ⟨[], l, w⟩ ⟨[], l, 0⟩ := by
  induction w with
  | zero => exact Relation.ReflTransGen.refl
  | succ w ih => exact Relation.ReflTransGen.head (PoolStep.exitW l w) ih

/-- With at least one worker, a completed run always exists. -/
theorem pool_complete (repos : List String) (P : Nat) (hP : 0 < P) :
    PoolReaches (initPool repos P) ⟨[], repos.reverse, 0⟩ := by
  obtain ⟨w, rfl⟩ := Nat.exists_eq_succ_of_ne_zero hP.ne'
  refine Relation.ReflTransGen.trans ?_ (pool_exit_all repos.reverse (w + 1))
  simpa using pool_drain w repos []

/-- C1: for every input list of repository identifiers and every positive
concurrency level, a completed run of the worker pool exists, and every
completed run performs exactly one removal per list entry: the processing
log is precisely the reversed input list, its length is the input length
(exactly R resolve/execute cycles), and every identifier occurs in the log
exactly as often as in the input — none processed twice, none skipped.
Each `pop` step is a single worker's atomic queue removal. -/
theorem pool_processes_each_exactly_once (repos : List String) (P : Nat)
    (hP : 0 < P) :
    (∃ s, PoolReaches (initPool repos P) s ∧ PoolDone s) ∧
    ∀ s, PoolReaches (initPool repos P) s → PoolDone s →
      s.plog = repos.reverse ∧ s.plog.length = repos.length ∧
      ∀ r, s.plog.count r = repos.count r := by
  refine ⟨⟨⟨[], repos.reverse, 0⟩, pool_complete repos P hP, rfl⟩, ?_⟩
  intro s hr hd
  obtain ⟨hl, -⟩ := poolDone_log hP hr hd
  exact ⟨hl, by simp [hl], fun r => by simp [hl]⟩

/-- Witness for C1 at the concrete input list `["A", "B"]` with one worker. -/
theorem pool_processes_each_exactly_once_witness :
    (∃ s, PoolReaches (initPool ["A", "B"] 1) s ∧ PoolDone s) ∧
    ∀ s, PoolReaches (initPool ["A", "B"] 1) s → PoolDone s →
      s.plog = (["A", "B"] : List String).reverse ∧
      s.plog.length = (["A", "B"] : List String).length ∧
      ∀ r, s.plog.count r = (["A", "B"] : List String).count r :=
  pool_processes_each_exactly_once ["A", "B"] 1 (by decide)

/-- C6: with concurrency level 1, the queue is drained last-in-first-out:
every completed run on the input list `[a, b, c]` has processing log
`[c, b, a]`. -/
theorem single_worker_lifo (a b c : String) (s : PoolState)
    (h : PoolReaches (initPool [a, b, c] 1) s) (hd : PoolDone s) :
    s.plog = [c, b, a] := by
  simpa using (poolDone_log (by decide) h hd).1

/-- Witness for C6: the concrete completed single-worker run on
`["A", "B", "C"]` has processed `C`, then `B`, then `A`. -/
theorem single_worker_lifo_witness :
    (⟨[], ["C", "B", "A"], 0⟩ : PoolState).plog = ["C", "B", "A"] :=
  single_worker_lifo "A" "B" "C" ⟨[], ["C", "B", "A"], 0⟩
    (pool_complete ["A", "B", "C"] 1 (by decide)) rfl

/-- C10: the argument `0` to `-p` parses successfully to 0 (it is not
replaced by the default 5), and a pool started with zero workers can take
no step at all: every reachable state is the initial state, so nothing is
processed, no output is produced, and the run is already complete (all
zero workers have terminated). -/
theorem zero_parallels_noop (repos : List String) (s : PoolState)
    (h : PoolReaches (initPool repos (parseParallels "0")) s) :
    parseParallels "0" = 0 ∧ s.plog = [] ∧ s.queue = repos ∧ PoolDone s := by
  have h0 : parseParallels "0" = 0 := by decide
  rw [h0] at h
  have hs : s = initPool repos 0 := by
    induction h with
    | refl => rfl
    | tail hr hstep ih =>
        rw [ih] at hstep
        unfold initPool at hstep
        cases hstep
  rw [hs]
  exact ⟨h0, rfl, rfl, rfl⟩

/-- Witness for C10 at the concrete list `["A"]` and the initial state. -/
theorem zero_parallels_noop_witness :
    parseParallels "0" = 0 ∧ (initPool ["A"] 0).plog = [] ∧
      (initPool ["A"] 0).queue = ["A"] ∧ PoolDone (initPool ["A"] 0) :=
  zero_parallels_noop ["A"] (initPool ["A"] 0)
    (by rw [show parseParallels "0" = 0 from by decide]; exact Relation.ReflTransGen.refl)

/-- C2: when the local path does not exist and the requested command is not
`"clone"`, command resolution yields the actual command `"clone"` with
`skip = false`. -/
theorem resolve_missing_forces_clone (cmd : String) (h : cmd ≠ "clone") :
    resolve cmd false = ("clone", false) := by
  simp [resolve, h]

/-- Witness for C2 at the requested command `"pull"`. -/
theorem resolve_missing_forces_clone_witness :
    resolve "pull" false = ("clone", false) :=
  resolve_missing_forces_clone "pull" (by decide)

/-- C3: when the local path exists and the requested command is `"clone"`,
resolution sets the skip flag, and `process_repo` returns immediately: no
external invocation is made and no output event is produced, for any
behaviour of the external tool. -/
theorem clone_existing_skips (devDir repo : String)
    (exec : List String → ExecResult) :
    (resolve "clone" true).2 = true ∧
    processRepo ⟨"clone", devDir⟩ repo true exec = ([], []) := by
  exact ⟨by decide, by simp [processRepo]⟩

/-- C4: for a repository processed with resolved command `"status"` (the
requested command is `"status"` and the local path exists), if the quiet
porcelain check spawns and captures empty stdout, the whole operation is a
no-op: the only invocation is the porcelain check (no full status runs) and
no output event is emitted. -/
theorem status_clean_noop (devDir repo e : String)
    (exec : List String → ExecResult)
    (h : exec (porcelainInv (localRepo ⟨"status", devDir⟩ repo)) = .ok "" e) :
    processRepo ⟨"status", devDir⟩ repo true exec
      = ([porcelainInv (localRepo ⟨"status", devDir⟩ repo)], []) := by
  simp [processRepo, execCmd, h]

/-- Witness for C4: a concrete oracle whose porcelain check answers empty
stdout. -/
theorem status_clean_noop_witness :
    processRepo ⟨"status", "d"⟩ "r" true (fun _ => ExecResult.ok "" "E")
      = ([porcelainInv (localRepo ⟨"status", "d"⟩ "r")], []) :=
  status_clean_noop "d" "r" "E" (fun _ => ExecResult.ok "" "E") rfl

/-- C5: an external-process spawn failure is captured, reported as a single
error line through the output synchronizer, and isolates nothing else: even
when EVERY spawn fails, `process_repo` returns normally with just the error
line, the worker loop still processes every queued repository, and each
processed repository gets its own error line. -/
theorem spawn_failure_isolated (cmd devDir repo m : String)
    (existsP : String → Bool) (repos : List String) :
    processRepo ⟨cmd, devDir⟩ repo false (fun _ => .spawnErr m)
      = ([cloneInv devDir repo], [.errLine cmd repo m]) ∧
    (runWorker ⟨cmd, devDir⟩ existsP (fun _ => .spawnErr m) repos).1
      = repos.reverse ∧
    (runWorker ⟨cmd, devDir⟩ (fun _ => false) (fun _ => .spawnErr m) repos).2
      = repos.reverse.map (fun r => OutputEvent.errLine cmd r m) := by
  refine ⟨processRepo_spawnErr cmd devDir repo m, ?_, ?_⟩
  · exact runWorkerRev_fst _ _ _ _
  · exact runWorkerRev_spawnErr cmd devDir m repos.reverse

/-- C7: the repo-list filtering of `read_repos` coincides with the spec's
description (trim every line, ignore lines that are empty or start with
`'#'`, keep the rest verbatim), and the example file of one URL line, one
comment line and one blank line yields exactly the URL identifier. -/
theorem read_repos_matches_spec (lines : List String) :
    readRepos lines = readReposSpec lines ∧
    readRepos ["https://example.com/org/foo.git", "# comment", ""]
      = ["https://example.com/org/foo.git"] := by
  refine ⟨?_, by decide⟩
  induction lines with
  | nil => rfl
  | cons l rest ih =>
      simp only [readRepos, readReposSpec] at ih ⊢
      rw [List.map_cons, List.filter_cons, List.filterMap_cons]
      by_cases he : (trimStr l).data = [] <;>
        by_cases hh : startsHash (trimStr l) = true <;>
        simp [he, hh, ih]

/-- The head-pattern test matching the recursion of `dropGitRev`. -/
def startsGit : List Char → Bool
  | 't' :: 'i' :: 'g' :: '.' :: _ => true
  | _ => false

theorem startsGit_iff (l : List Char) :
    startsGit l = true ↔ ∃ rest, l = 't' :: 'i' :: 'g' :: '.' :: rest := by
  constructor
  · intro h
    unfold startsGit at h
    split at h
    · next rest => exact ⟨rest, rfl⟩
    · exact absurd h (by simp)
  · rintro ⟨rest, rfl⟩
    rfl

theorem dropGitRev_eq_self (l : List Char) (h : startsGit l = false) :
    dropGitRev l = l := by
  unfold dropGitRev
  split
  · next rest => simp [startsGit] at h
  · rfl

/-- The last segment is an initial part of the reversed string. -/
theorem lastSegRev_append (l : List Char) : ∃ t, lastSegRev l ++ t = l := by
  induction l with
  | nil => exact ⟨[], rfl⟩
  | cons c rest ih =>
      by_cases hc : c = '/'
      · exact ⟨c :: rest, by simp [lastSegRev, List.takeWhile_cons, hc]⟩
      · obtain ⟨t, ht⟩ := ih
        refine ⟨t, ?_⟩
        simpa [lastSegRev, List.takeWhile_cons, hc] using ht

theorem startsGit_lastSegRev (l : List Char) (h : startsGit l = false) :
    startsGit (lastSegRev l) = false := by
  by_contra hc
  rw [Bool.not_eq_false] at hc
  obtain ⟨rest, hr⟩ := (startsGit_iff _).1 hc
  obtain ⟨t, ht⟩ := lastSegRev_append l
  rw [hr] at ht
  rw [← ht] at h
  simp [startsGit] at h

/-- Stripping trailing `".git"` occurrences commutes with taking the last
`'/'`-separated segment (both phrased on the reversed character list). -/
theorem lastSegRev_dropGitRev (l : List Char) :
    lastSegRev (dropGitRev l) = dropGitRev (lastSegRev l) := by
  by_cases h : startsGit l = true
  · obtain ⟨rest, rfl⟩ := (startsGit_iff l).1 h
    have h2 : lastSegRev ('t' :: 'i' :: 'g' :: '.' :: rest)
        = 't' :: 'i' :: 'g' :: '.' :: lastSegRev rest := by
      simp [lastSegRev, List.takeWhile_cons]
    rw [show dropGitRev ('t' :: 'i' :: 'g' :: '.' :: rest) = dropGitRev rest
          from rfl,
        h2,
        show dropGitRev ('t' :: 'i' :: 'g' :: '.' :: lastSegRev rest)
          = dropGitRev (lastSegRev rest) from rfl]
    exact lastSegRev_dropGitRev rest
  · rw [Bool.not_eq_true] at h
    rw [dropGitRev_eq_self l h, dropGitRev_eq_self _ (startsGit_lastSegRev l h)]
termination_by l.length
decreasing_by subst_vars; simp only [List.length_cons]; omega

/-- C8: the derived local name is the last path segment with the trailing
`".git"` suffix stripped — the source strips `".git"` from the whole
identifier before splitting, the spec splits first, and the two agree on
every identifier; the local repository path is the dev directory joined
with that name; and the example identifier derives local name `foo`. -/
theorem repo_name_matches_spec (cmd devDir repo : String) :
    repoName repo = specLocalName repo ∧
    localRepo ⟨cmd, devDir⟩ repo = devDir ++ "/" ++ specLocalName repo ∧
    repoName "https://example.com/org/foo.git" = "foo" := by
  have key : repoName repo = specLocalName repo := by
    unfold repoName specLocalName lastSegment trimEndGit
    rw [data_mk, data_mk, List.reverse_reverse, List.reverse_reverse,
      lastSegRev_dropGitRev]
  exact ⟨key, by rw [show localRepo ⟨cmd, devDir⟩ repo
    = devDir ++ "/" ++ repoName repo from rfl, key], by decide⟩

/-- C9: a successful run prints the block headed by the uppercased
REQUESTED command — a requested `pull` rewritten into an executed `clone`
still prints header `PULL` — the spawn-failure error line also names the
requested command, and in general every block any `process_repo` call emits
is headed by the uppercased requested command. -/
theorem header_shows_requested (devDir repo o e m hdr r out2 err2 : String)
    (cfg : Config) (ex : Bool) (exec exec2 : List String → ExecResult)
    (hok : exec (cloneInv devDir repo) = .ok o e)
    (hmem : OutputEvent.block hdr r out2 err2 ∈ (processRepo cfg r ex exec2).2) :
    processRepo ⟨"pull", devDir⟩ repo false exec
      = ([cloneInv devDir repo], [.block "PULL" repo o e]) ∧
    processRepo ⟨"pull", devDir⟩ repo false (fun _ => .spawnErr m)
      = ([cloneInv devDir repo], [.errLine "pull" repo m]) ∧
    hdr = toUpperStr cfg.cmd := by
  refine ⟨?_, processRepo_spawnErr "pull" devDir repo m, ?_⟩
  · simp [processRepo, execCmd, report, hok,
      show toUpperStr "pull" = "PULL" from by decide]
  · rcases processRepo_events_header cfg r ex exec2 _ hmem with ⟨o2, e2, hb⟩ | ⟨m2, hb⟩
    · simp only [OutputEvent.block.injEq] at hb
      exact hb.1
    · exact absurd hb (by simp)

/-- Witness for C9: concrete successful and failing oracles; the block of a
requested `fetch` is headed `FETCH`. -/
theorem header_shows_requested_witness :
    processRepo ⟨"pull", "d"⟩ "r" false (fun _ => ExecResult.ok "o" "e")
      = ([cloneInv "d" "r"], [.block "PULL" "r" "o" "e"]) ∧
    processRepo ⟨"pull", "d"⟩ "r" false (fun _ => ExecResult.spawnErr "m")
      = ([cloneInv "d" "r"], [.errLine "pull" "r" "m"]) ∧
    "FETCH" = toUpperStr ((⟨"fetch", "dd"⟩ : Config).cmd) :=
  header_shows_requested "d" "r" "o" "e" "m" "FETCH" "rr" "oo" "ee"
    ⟨"fetch", "dd"⟩ true (fun _ => ExecResult.ok "o" "e")
    (fun _ => ExecResult.ok "oo" "ee") rfl (by decide)

end Repox
